import Mathlib

/-!
# Mercurial signatures: verification of the spec against the source

Shallow embedding of the `mercurial-signature` Rust crate.

The crate works over an arbitrary Type-III pairing `(G₁, G₂, Gₜ, Fr, e)` with
`|G₁| = |G₂| = |Gₜ| = r` prime.  Every group in sight is cyclic of prime order
`r`, so after fixing generators each group is isomorphic to `(ZMod r, +)` with
scalar multiplication carried to field multiplication, and the (non-degenerate,
bilinear) pairing carried to field multiplication of discrete logarithms:
`e(a·g₁, b·g₂) = (a*b)·gₜ`.  Equality of group elements is equality of
discrete logarithms, so verification outcomes (`true` as well as `false`)
transfer exactly.  We therefore model all three groups and the scalar field by
one field `K`, write the groups additively through their discrete logarithms,
model scalar multiplication by `*` and the pairing by `pairing a b = a * b`.

Randomness: the crate threads an `RngCore`; we model a random stream as
`Nat → K` and pass each sampled scalar explicitly, in the order the source
draws them.  A Rust `panic!` (and the arkworks panic on inverting zero) is
modelled by `Option` with `none` for the panic.

The repository contains two copies of the base scheme:
* the generic one (`src/secret_key.rs`, `src/public_key.rs`, `src/signature.rs`,
  `src/params.rs`, `src/representation.rs`) used by the extension and the tests;
* a concrete one in `src/lib.rs` whose `verify` rejects `m ≠ ℓ` and whose
  `sign` has no length check.
Both are embedded: `SecretKey.sign` / `PublicKey.verify` for the generic
variant, `signCore` (the shared signing formula, which is exactly the
`lib.rs` sign) and `libVerify` for the `lib.rs` variant.
-/

namespace Mercurial

/-- `ZMod 5` serves as the concrete scalar field for closed instances. -/
instance : Fact (Nat.Prime 5) := ⟨by norm_num⟩

/-- `PublicParams` (src/params.rs): the two generators `p1 ∈ G₁`, `p2 ∈ G₂`. -/
structure PublicParams (K : Type) where
  p1 : K
  p2 : K

/-- `SecretKey` (src/secret_key.rs): `sk = (x₁, …, x_ℓ) ∈ Frˡ`. -/
structure SecretKey (K : Type) where
  x : List K

/-- `PublicKey` (src/public_key.rs): `pk = (p2·x₁, …, p2·x_ℓ) ∈ G₂ˡ`. -/
structure PublicKey (K : Type) where
  bx : List K

/-- `Signature` (src/signature.rs): `z ∈ G₁`, `y1 ∈ G₁`, `y2 ∈ G₂`. -/
structure Signature (K : Type) where
  z : K
  y1 : K
  y2 : K

variable {K : Type} [Field K] [DecidableEq K]

/-- The Type-III pairing in discrete-logarithm coordinates. -/
def pairing (a b : K) : K := a * b

/-- `PublicParams::key_gen` (src/params.rs): samples `xᵢ ← Fr` for
`i = 1..size`, sets `bxᵢ = xᵢ · p2`.  The rng is the stream `rng`. -/
def PublicParams.key_gen (pp : PublicParams K) (rng : Nat → K) (size : Nat) :
    PublicKey K × SecretKey K :=
  let x := (List.range size).map rng
  (⟨x.map fun xi => pp.p2 * xi⟩, ⟨x⟩)

/-- The signing formula shared by both `sign` variants, with the sampled
scalar `y` passed explicitly: `z = Σ Mᵢ·(y·xᵢ)` (the `zip` truncates to the
shorter list, exactly as the Rust iterator `zip` does), `y1 = p1·(1/y)`,
`y2 = p2·(1/y)`.  This is literally `SecretKey::sign` of src/lib.rs, which
performs no length check.  In arkworks `Fr::one() / y` panics at `y = 0`
(`inverse().unwrap()`); in the model `1/0 = 0`. -/
def signCore (sk : SecretKey K) (pp : PublicParams K) (y : K) (message : List K) :
    Signature K :=
  { z := (message.zip sk.x).foldl (fun acc mx => acc + mx.1 * (y * mx.2)) 0
    y1 := pp.p1 * (1 / y)
    y2 := pp.p2 * (1 / y) }

/-- `SecretKey::sign` (src/secret_key.rs): panics — modelled as `none` — when
`sk.x.len() < message.len()`, otherwise the shared signing formula. -/
def SecretKey.sign (sk : SecretKey K) (pp : PublicParams K) (y : K)
    (message : List K) : Option (Signature K) :=
  if sk.x.length < message.length then none
  else some (signCore sk pp y message)

/-- The pairing-product fold of `verify`:
`e(0,0) + e(M₁,bx₁) + … + e(Mₘ,bxₘ)` (again `zip` truncates). -/
def pairingFold (message bx : List K) : K :=
  (message.zip bx).foldl (fun acc mb => acc + pairing mb.1 mb.2) (pairing 0 0)

/-- `PublicKey::verify` (src/public_key.rs): rejects `pk.len < m.len`, then
checks `e(y1,p2) = e(p1,y2)` and `e(z,y2) = Π e(Mᵢ,bxᵢ)`. -/
def PublicKey.verify (pk : PublicKey K) (pp : PublicParams K)
    (message : List K) (sig : Signature K) : Bool :=
  if pk.bx.length < message.length then false
  else if pairing sig.y1 pp.p2 ≠ pairing pp.p1 sig.y2 then false
  else decide (pairing sig.z sig.y2 = pairingFold message pk.bx)

/-- `PublicKey::verify` of src/lib.rs: identical except that the length check
rejects `m.len ≠ pk.len`. -/
def libVerify (pk : PublicKey K) (pp : PublicParams K)
    (message : List K) (sig : Signature K) : Bool :=
  if message.length ≠ pk.bx.length then false
  else if pairing sig.y1 pp.p2 ≠ pairing pp.p1 sig.y2 then false
  else decide (pairing sig.z sig.y2 = pairingFold message pk.bx)

/-- `SecretKey::convert` (src/secret_key.rs): `xᵢ ← xᵢ * p`. -/
def SecretKey.convert (sk : SecretKey K) (p : K) : SecretKey K :=
  ⟨sk.x.map fun xi => xi * p⟩

/-- `PublicKey::convert` (src/public_key.rs): `bxᵢ ← bxᵢ * p`. -/
def PublicKey.convert (pk : PublicKey K) (p : K) : PublicKey K :=
  ⟨pk.bx.map fun bxi => bxi * p⟩

/-- `Signature::convert_with_f` (src/signature.rs): `z ← z·(p·f)`,
`y1 ← y1·(1/f)`, `y2 ← y2·(1/f)`. -/
def Signature.convert_with_f (sig : Signature K) (p f : K) : Signature K :=
  { z := sig.z * (p * f)
    y1 := sig.y1 * (1 / f)
    y2 := sig.y2 * (1 / f) }

/-- `Signature::convert` (src/signature.rs): samples `f ← Fr::rand(rng)` —
with no rejection of zero — then `convert_with_f p f`. -/
def Signature.convertSampled (sig : Signature K) (rng : Nat → K) (p : K) :
    Signature K :=
  sig.convert_with_f p (rng 0)

/-- `change_representation` (src/representation.rs): samples `f`, applies
`convert_with_f u f` to the signature and scales each `Mᵢ` by `u`. -/
def change_representation (message : List K) (sig : Signature K) (u f : K) :
    List K × Signature K :=
  (message.map fun mi => mi * u, sig.convert_with_f u f)

/-- `change_representation` with the sampled `f` taken from the stream (the
source draws one `Fr::rand(rng)` with no rejection of zero). -/
def changeRepSampled (message : List K) (sig : Signature K) (rng : Nat → K)
    (u : K) : List K × Signature K :=
  change_representation message sig u (rng 0)

/-- The `lib.rs` sign with its sampled `y` taken from the stream: the source
uses the raw `Fr::rand(rng)` sample, with no rejection of zero, directly in
`Fr::one() / y`. -/
def signSampled (sk : SecretKey K) (pp : PublicParams K) (rng : Nat → K)
    (message : List K) : Signature K :=
  signCore sk pp (rng 0) message

/-! ## The variable-length-message extension (src/extension/) -/

/-- `extension::SecretKey` (src/extension/secret_key.rs): a base key of
length 5 plus the scalars `x6, x7 = x6·x, x8, x9 = x8·y₁, x10 = x8·y₂`. -/
structure ExtSecretKey (K : Type) where
  sk : SecretKey K
  x6 : K
  x7 : K
  x8 : K
  x9 : K
  x10 : K

/-- `extension::PublicKey` (src/extension/public_key.rs): a base key of
length 5 plus `bx6..bx10` (reserved for the glue-element ZK proof). -/
structure ExtPublicKey (K : Type) where
  pk : PublicKey K
  bx6 : K
  bx7 : K
  bx8 : K
  bx9 : K
  bx10 : K

/-- `VarMessage` (src/extension/representation.rs): `g ∈ G₁` and
`u = (u₁, …, u_n) ∈ G₁ⁿ`. -/
structure VarMessage (K : Type) where
  g : K
  u : List K

/-- `VarSignature` (src/extension/signature.rs): the glue element `h` and one
base signature per coordinate. -/
structure VarSignature (K : Type) where
  h : K
  sigs : List (Signature K)

/-- `PublicParams::key_gen_ex` (src/params.rs): base `key_gen(rng, 5)`
(consuming `rng 0 .. rng 4`), then samples `x, y₁, y₂, x6, x8` and sets
`x7 = x6·x`, `x9 = x8·y₁`, `x10 = x8·y₂`, `bxᵢ = xᵢ·p2`. -/
def PublicParams.key_gen_ex (pp : PublicParams K) (rng : Nat → K) :
    ExtPublicKey K × ExtSecretKey K :=
  let pksk := pp.key_gen rng 5
  let x := rng 5
  let y1 := rng 6
  let y2 := rng 7
  let x6 := rng 8
  let x7 := x6 * x
  let x8 := rng 9
  let x9 := x8 * y1
  let x10 := x8 * y2
  (⟨pksk.1, pp.p2 * x6, pp.p2 * x7, pp.p2 * x8, pp.p2 * x9, pp.p2 * x10⟩,
   ⟨pksk.2, x6, x7, x8, x9, x10⟩)

/-- The loop of `VarMessage::to_tuples` building `gs = [g, 2·g, …, n·g]` by
successive addition (`gs.push(gi); gi = gi + g`). -/
def gsAux (g : K) : K → Nat → List K
  | _, 0 => []
  | gi, n + 1 => gi :: gsAux g (gi + g) n

/-- `VarMessage::to_tuples` (src/extension/representation.rs): builds `gs`,
reads `gn = gs[gs.len() - 1]` — which panics when `u` is empty, hence the
`Option` via `getLast?` — and returns the tuples `Mᵢ = [g, i·g, n·g, h, uᵢ]`. -/
def VarMessage.to_tuples (m : VarMessage K) (h : K) : Option (List (List K)) :=
  let gs := gsAux m.g m.g m.u.length
  gs.getLast?.map fun gn => (gs.zip m.u).map fun p => [m.g, p.1, gn, h, p.2]

/-- The glue-element loop of `extension::SecretKey::sign`: `h = 0`, `xi = 1`;
at step `i` (0-based) add `uᵢ·(xi·y)` to `h` and multiply `xi` by `x` for the
next step. -/
def glueGo (x y : K) : K → K → List K → K
  | h, _, [] => h
  | h, xi, ui :: us => glueGo x y (h + ui * (xi * y)) (xi * x) us

/-- The per-tuple signing loop of `extension::SecretKey::sign`
(`ms.into_iter().map(|m| self.sk.sign(rng, pp, &m))`): each base `sign` draws
one fresh `y` from the stream, so the `i`-th call uses `ys i`; a panic of any
base `sign` (over-long tuple) propagates. -/
def mapSign (sk : SecretKey K) (pp : PublicParams K) :
    (Nat → K) → List (List K) → Option (List (Signature K))
  | _, [] => some []
  | ys, m :: ms =>
    (sk.sign pp (ys 0) m).bind fun s =>
      (mapSign sk pp (fun n => ys (n + 1)) ms).map fun ss => s :: ss

/-- `extension::SecretKey::sign` (src/extension/secret_key.rs): recover the
trapdoors `x = x7·(1/x6)`, `y₁ = x9·(1/x8)`, `y₂ = x10·(1/x8)`, `y = y₁·y₂`,
compute the glue element `h`, build the tuples and base-sign each one. -/
def ExtSecretKey.sign (esk : ExtSecretKey K) (pp : PublicParams K)
    (ys : Nat → K) (message : VarMessage K) : Option (VarSignature K) :=
  let x := esk.x7 * (1 / esk.x6)
  let y1 := esk.x9 * (1 / esk.x8)
  let y2 := esk.x10 * (1 / esk.x8)
  let y := y1 * y2
  let h := glueGo x y 0 1 message.u
  (message.to_tuples h).bind fun ms =>
    (mapSign esk.sk pp ys ms).map fun sigs => VarSignature.mk h sigs

/-- `extension::PublicKey::verify` (src/extension/public_key.rs): recompute
the tuples from the message and the signature's `h` (panicking — `none` — on
the empty message), then base-verify the `zip` of the component signatures
with the tuples; `zip` truncates to the shorter list. -/
def ExtPublicKey.verify (epk : ExtPublicKey K) (pp : PublicParams K)
    (message : VarMessage K) (sig : VarSignature K) : Option Bool :=
  (message.to_tuples sig.h).map fun ms =>
    (sig.sigs.zip ms).all fun sm => epk.pk.verify pp sm.2 sm.1

/-! ## Helper lemmas -/

lemma foldl_add_eq_sum {α : Type} (f : α → K) :
    ∀ (l : List α) (a : K),
      l.foldl (fun acc t => acc + f t) a = a + (l.map f).sum := by
  intro l
  induction l with
  | nil => intro a; simp
  | cons t l ih =>
    intro a
    simp only [List.foldl_cons, List.map_cons, List.sum_cons]
    rw [ih (a + f t), add_assoc]

lemma pairingFold_eq_sum (M bx : List K) :
    pairingFold M bx = ((M.zip bx).map fun t => t.1 * t.2).sum := by
  unfold pairingFold
  rw [foldl_add_eq_sum (fun mb : K × K => pairing mb.1 mb.2)]
  simp [pairing]

lemma signCore_y1 (sk : SecretKey K) (pp : PublicParams K) (y : K)
    (M : List K) : (signCore sk pp y M).y1 = pp.p1 * (1 / y) := rfl

lemma signCore_y2 (sk : SecretKey K) (pp : PublicParams K) (y : K)
    (M : List K) : (signCore sk pp y M).y2 = pp.p2 * (1 / y) := rfl

lemma signCore_z (sk : SecretKey K) (pp : PublicParams K) (y : K) (M : List K) :
    (signCore sk pp y M).z = y * ((M.zip sk.x).map fun t => t.1 * t.2).sum := by
  show (M.zip sk.x).foldl (fun acc mx => acc + mx.1 * (y * mx.2)) 0 = _
  rw [foldl_add_eq_sum (fun mx : K × K => mx.1 * (y * mx.2)), zero_add]
  have hf : (fun mx : K × K => mx.1 * (y * mx.2))
      = fun mx : K × K => y * (mx.1 * mx.2) := funext fun t => by ring
  rw [hf, List.sum_map_mul_left]

/-- Unfolding of the generic `verify` when the length check passes. -/
lemma verify_eq_true_iff (pk : PublicKey K) (pp : PublicParams K) (M : List K)
    (σ : Signature K) (h : M.length ≤ pk.bx.length) :
    pk.verify pp M σ = true ↔
      (pairing σ.y1 pp.p2 = pairing pp.p1 σ.y2 ∧
       pairing σ.z σ.y2 = pairingFold M pk.bx) := by
  unfold PublicKey.verify
  rw [if_neg (Nat.not_lt.mpr h)]
  by_cases h1 : pairing σ.y1 pp.p2 = pairing pp.p1 σ.y2
  · simp [h1]
  · simp [h1]

/-- Unfolding of the `lib.rs` `verify` when the length check passes. -/
lemma libVerify_eq_true_iff (pk : PublicKey K) (pp : PublicParams K)
    (M : List K) (σ : Signature K) (h : M.length = pk.bx.length) :
    libVerify pk pp M σ = true ↔
      (pairing σ.y1 pp.p2 = pairing pp.p1 σ.y2 ∧
       pairing σ.z σ.y2 = pairingFold M pk.bx) := by
  unfold libVerify
  rw [if_neg (show ¬M.length ≠ pk.bx.length from by simp [h])]
  by_cases h1 : pairing σ.y1 pp.p2 = pairing pp.p1 σ.y2
  · simp [h1]
  · simp [h1]

lemma zipSum_right_of :
    ∀ (M x : List K) (g : K → K) (c : K), (∀ t, g t = c * t) →
      ((M.zip (x.map g)).map fun t => t.1 * t.2).sum
        = c * ((M.zip x).map fun t => t.1 * t.2).sum := by
  intro M
  induction M with
  | nil => intro x g c _; simp
  | cons m M ih =>
    intro x g c hg
    cases x with
    | nil => simp
    | cons x0 x =>
      simp only [List.map_cons, List.zip_cons_cons, List.sum_cons]
      rw [hg x0, ih x g c hg]
      ring

lemma zipSum_left_of :
    ∀ (M x : List K) (g : K → K) (c : K), (∀ t, g t = c * t) →
      (((M.map g).zip x).map fun t => t.1 * t.2).sum
        = c * ((M.zip x).map fun t => t.1 * t.2).sum := by
  intro M
  induction M with
  | nil => intro x g c _; simp
  | cons m M ih =>
    intro x g c hg
    cases x with
    | nil => simp
    | cons x0 x =>
      simp only [List.map_cons, List.zip_cons_cons, List.sum_cons]
      rw [hg m, ih x g c hg]
      ring

/-- The two verification equations hold for a fresh `signCore` signature
under the matching key, for any message (the `zip`s truncate in lockstep). -/
lemma signCore_eqs (pp : PublicParams K) (x M : List K) (y : K) (hy : y ≠ 0) :
    pairing (signCore ⟨x⟩ pp y M).y1 pp.p2
        = pairing pp.p1 (signCore ⟨x⟩ pp y M).y2 ∧
    pairing (signCore ⟨x⟩ pp y M).z (signCore ⟨x⟩ pp y M).y2
        = pairingFold M (x.map fun xi => pp.p2 * xi) := by
  constructor
  · show pairing (pp.p1 * (1 / y)) pp.p2 = pairing pp.p1 (pp.p2 * (1 / y))
    unfold pairing; ring
  · rw [pairingFold_eq_sum, signCore_z,
      zipSum_right_of M x _ pp.p2 (fun t => rfl)]
    show pairing _ (pp.p2 * (1 / y)) = _
    unfold pairing
    field_simp
    ring

/-- Master correctness lemma: a `signCore` signature under a matching key
pair verifies (generic variant) whenever the message is at most as long as
the key and the sampled `y` is nonzero. -/
lemma verify_signCore_of_le (pp : PublicParams K) (x M : List K) (y : K)
    (hy : y ≠ 0) (hlen : M.length ≤ x.length) :
    (PublicKey.mk (x.map fun xi => pp.p2 * xi)).verify pp M
      (signCore ⟨x⟩ pp y M) = true := by
  rw [verify_eq_true_iff _ _ _ _ (by simpa using hlen)]
  exact signCore_eqs pp x M y hy

/-! ## The claims -/

/-- Claim C1: for every public parameters `pp`, every key pair produced by
`key_gen(pp, rng, ℓ)` with `ℓ ≥ 1`, and every message `M ∈ G₁^ℓ` with
`length M = length sk`, the signature `Sign(sk, pp, rng, M)` verifies under
the paired public key (under the hypothesis that the sampled `y` is nonzero);
this holds for both `verify` variants, and the generic `sign` completes
without panicking. -/
theorem C1_sign_then_verify (pp : PublicParams K) (rng : Nat → K) (ℓ : Nat)
    (y : K) (M : List K) (hl : 1 ≤ ℓ)
    (hm : M.length = ((pp.key_gen rng ℓ).2).x.length) (hy : y ≠ 0) :
    ((pp.key_gen rng ℓ).2).sign pp y M
        = some (signCore (pp.key_gen rng ℓ).2 pp y M) ∧
    ((pp.key_gen rng ℓ).1).verify pp M
        (signCore (pp.key_gen rng ℓ).2 pp y M) = true ∧
    libVerify (pp.key_gen rng ℓ).1 pp M
        (signCore (pp.key_gen rng ℓ).2 pp y M) = true := by
  have hm2 : M.length = ((List.range ℓ).map rng).length := hm
  refine ⟨?_, ?_, ?_⟩
  · unfold SecretKey.sign
    rw [if_neg (by omega)]
  · exact verify_signCore_of_le pp ((List.range ℓ).map rng) M y hy (le_of_eq hm2)
  · rw [libVerify_eq_true_iff _ _ _ _
      (show M.length = ((pp.key_gen rng ℓ).1).bx.length from by
        simpa [PublicParams.key_gen] using hm2)]
    exact signCore_eqs pp ((List.range ℓ).map rng) M y hy

/-- Witness for C1 at `K = ZMod 5`, `pp = (1,1)`, `ℓ = 1`, `x = [1]`,
`M = [2]`, `y = 1`. -/
theorem C1_witness :
    (1 ≤ 1 ∧ (1 : ZMod 5) ≠ 0) ∧
    (((⟨1, 1⟩ : PublicParams (ZMod 5)).key_gen (fun _ => 1) 1).2).sign
        ⟨1, 1⟩ 1 [2]
      = some (signCore ((⟨1, 1⟩ : PublicParams (ZMod 5)).key_gen
          (fun _ => 1) 1).2 ⟨1, 1⟩ 1 [2]) ∧
    (((⟨1, 1⟩ : PublicParams (ZMod 5)).key_gen (fun _ => 1) 1).1).verify
        ⟨1, 1⟩ [2] (signCore ((⟨1, 1⟩ : PublicParams (ZMod 5)).key_gen
          (fun _ => 1) 1).2 ⟨1, 1⟩ 1 [2]) = true ∧
    libVerify (((⟨1, 1⟩ : PublicParams (ZMod 5)).key_gen (fun _ => 1) 1)).1
        ⟨1, 1⟩ [2] (signCore ((⟨1, 1⟩ : PublicParams (ZMod 5)).key_gen
          (fun _ => 1) 1).2 ⟨1, 1⟩ 1 [2]) = true :=
  ⟨⟨by decide, by decide⟩,
    C1_sign_then_verify ⟨1, 1⟩ (fun _ => 1) 1 1 [2] (by decide) (by decide)
      (by decide)⟩

/-- Claim C2 (failing input): the two `verify` variants disagree on a message
strictly shorter than the key.  Over `ZMod 5` with `pp = (1,1)`, key
`x = [1,2]` (`ℓ = 2`), message `M = [3]` (`m = 1`), `y = 1`: the generic
variant (`m > ℓ` check, the behavior the spec fixes and the repository's own
test exercises) accepts, while the `lib.rs` variant (`m ≠ ℓ` check) rejects
the exact same signature. -/
theorem C2_short_message_divergence :
    ((PublicKey.mk ([1, 2].map fun xi =>
        (⟨1, 1⟩ : PublicParams (ZMod 5)).p2 * xi)).verify ⟨1, 1⟩ [3]
      (signCore ⟨[1, 2]⟩ ⟨1, 1⟩ 1 [3]) = true) ∧
    (libVerify (PublicKey.mk ([1, 2].map fun xi =>
        (⟨1, 1⟩ : PublicParams (ZMod 5)).p2 * xi)) ⟨1, 1⟩ [3]
      (signCore ⟨[1, 2]⟩ ⟨1, 1⟩ 1 [3]) = false) :=
  ⟨verify_signCore_of_le ⟨1, 1⟩ [1, 2] [3] 1 (by decide) (by decide), rfl⟩

/-- Claim C5 (failing input): on a message longer than the key neither
variant signals a recoverable error.  The generic `sign` panics (modelled
`none`), and the `lib.rs` `sign` silently signs the truncated message: its
result on `[1, 2]` under the length-1 key equals its result on `[1]`. -/
theorem C5_overlong_message_divergence :
    (SecretKey.sign (⟨[1]⟩ : SecretKey (ZMod 5)) ⟨1, 1⟩ 1 [1, 2] = none) ∧
    (signCore (⟨[1]⟩ : SecretKey (ZMod 5)) ⟨1, 1⟩ 1 [1, 2]
      = signCore ⟨[1]⟩ ⟨1, 1⟩ 1 [1]) :=
  ⟨rfl, rfl⟩

/-- Claim C6 (failing input): the sampled scalars that get inverted are not
rejected when zero.  With an rng stream that returns 0, `sign` uses `y = 0`
directly (in the source `Fr::one() / y` then panics), and `ConvertSig` /
`ChangeRep` use `f = 0` directly in `1/f`; in the model `1/0 = 0`, so the
resulting components collapse to the identity instead of a resampled nonzero
value. -/
theorem C6_zero_sample_not_rejected (pp : PublicParams K) (x M : List K)
    (sig : Signature K) (p u : K) :
    (signSampled ⟨x⟩ pp (fun _ => 0) M).y1 = 0 ∧
    (signSampled ⟨x⟩ pp (fun _ => 0) M).y2 = 0 ∧
    (sig.convertSampled (fun _ => 0) p).z = 0 ∧
    (sig.convertSampled (fun _ => 0) p).y1 = 0 ∧
    (sig.convertSampled (fun _ => 0) p).y2 = 0 ∧
    (changeRepSampled M sig (fun _ => 0) u).2.y1 = 0 ∧
    (changeRepSampled M sig (fun _ => 0) u).2.y2 = 0 := by
  refine ⟨?_, ?_, ?_, ?_, ?_, ?_, ?_⟩ <;>
    simp [signSampled, signCore, Signature.convertSampled,
      Signature.convert_with_f, changeRepSampled, change_representation]

/-- Claim C8 (failing inputs): `VarVerify` is not total and does not reject
length mismatches.  On the empty message it panics (`to_tuples` reads
`gs[gs.len() - 1]` of an empty vector), modelled as `none`; and on a
length-1 message with an empty component-signature vector the `zip`
truncates and the empty conjunction yields `some true` instead of the
`false` the spec requires. -/
theorem C8_var_verify_panics_and_vacuously_accepts (epk : ExtPublicKey K)
    (pp : PublicParams K) (g hg u1 : K) (sig : VarSignature K) :
    (epk.verify pp ⟨g, []⟩ sig = none) ∧
    (epk.verify pp ⟨g, [u1]⟩ ⟨hg, []⟩ = some true) := by
  constructor
  · simp [ExtPublicKey.verify, VarMessage.to_tuples, gsAux]
  · simp [ExtPublicKey.verify, VarMessage.to_tuples, gsAux]

/-- Claim C3: converting the public key, the secret key and the signature
with the same nonzero `p` (and any nonzero internal randomizer `f`) keeps
the triple self-consistent: the converted signature on the unchanged message
verifies under the converted public key. -/
theorem C3_convert_key_and_signature (pp : PublicParams K) (x M : List K)
    (y p f : K) (hy : y ≠ 0) (hp : p ≠ 0) (hf : f ≠ 0)
    (hlen : M.length ≤ x.length) :
    ((PublicKey.mk (x.map fun xi => pp.p2 * xi)).convert p).verify pp M
      ((signCore ⟨x⟩ pp y M).convert_with_f p f) = true := by
  rw [verify_eq_true_iff _ _ _ _
    (by simpa [PublicKey.convert] using hlen)]
  constructor
  · show pairing ((signCore ⟨x⟩ pp y M).y1 * (1 / f)) pp.p2
        = pairing pp.p1 ((signCore ⟨x⟩ pp y M).y2 * (1 / f))
    rw [signCore_y1, signCore_y2]
    unfold pairing; ring
  · show pairing ((signCore ⟨x⟩ pp y M).z * (p * f))
        ((signCore ⟨x⟩ pp y M).y2 * (1 / f)) = _
    rw [signCore_z, signCore_y2, pairingFold_eq_sum]
    simp only [PublicKey.convert, List.map_map]
    rw [zipSum_right_of M x _ (pp.p2 * p)
      (fun t => by simp only [Function.comp_apply]; ring)]
    unfold pairing
    field_simp
    ring

/-- Witness for C3 at `K = ZMod 5`, `pp = (1,1)`, `x = [1]`, `M = [2]`,
`y = 1`, `p = 2`, `f = 1`. -/
theorem C3_witness :
    ((1 : ZMod 5) ≠ 0 ∧ (2 : ZMod 5) ≠ 0 ∧ (1 : ZMod 5) ≠ 0) ∧
    ((PublicKey.mk ([1].map fun xi =>
        (⟨1, 1⟩ : PublicParams (ZMod 5)).p2 * xi)).convert 2).verify ⟨1, 1⟩
      [2] ((signCore ⟨[1]⟩ ⟨1, 1⟩ 1 [2]).convert_with_f 2 1) = true :=
  ⟨⟨by decide, by decide, by decide⟩,
    C3_convert_key_and_signature ⟨1, 1⟩ [1] [2] 1 2 1 (by decide) (by decide)
      (by decide) (by decide)⟩

/-- Claim C4: `change_representation` with any nonzero `u` (and nonzero
internal `f`) scales every message coordinate by `u` and updates the
signature so that the unchanged public key still accepts. -/
theorem C4_change_representation (pp : PublicParams K) (x M : List K)
    (y u f : K) (hy : y ≠ 0) (hu : u ≠ 0) (hf : f ≠ 0)
    (hlen : M.length ≤ x.length) :
    (PublicKey.mk (x.map fun xi => pp.p2 * xi)).verify pp
      (change_representation M (signCore ⟨x⟩ pp y M) u f).1
      (change_representation M (signCore ⟨x⟩ pp y M) u f).2 = true := by
  simp only [change_representation]
  rw [verify_eq_true_iff _ _ _ _ (by simpa using hlen)]
  constructor
  · show pairing ((signCore ⟨x⟩ pp y M).y1 * (1 / f)) pp.p2
        = pairing pp.p1 ((signCore ⟨x⟩ pp y M).y2 * (1 / f))
    rw [signCore_y1, signCore_y2]
    unfold pairing; ring
  · show pairing ((signCore ⟨x⟩ pp y M).z * (u * f))
        ((signCore ⟨x⟩ pp y M).y2 * (1 / f)) = _
    rw [signCore_z, signCore_y2, pairingFold_eq_sum]
    rw [zipSum_left_of M (x.map fun xi => pp.p2 * xi) _ u
      (fun t => by ring)]
    rw [zipSum_right_of M x _ pp.p2 (fun t => rfl)]
    unfold pairing
    field_simp
    ring

/-- Witness for C4 at `K = ZMod 5`, `pp = (1,1)`, `x = [1]`, `M = [2]`,
`y = 1`, `u = 2`, `f = 1`. -/
theorem C4_witness :
    ((1 : ZMod 5) ≠ 0 ∧ (2 : ZMod 5) ≠ 0 ∧ (1 : ZMod 5) ≠ 0) ∧
    (PublicKey.mk ([1].map fun xi =>
        (⟨1, 1⟩ : PublicParams (ZMod 5)).p2 * xi)).verify ⟨1, 1⟩
      (change_representation [2] (signCore ⟨[1]⟩ ⟨1, 1⟩ 1 [2]) 2 1).1
      (change_representation [2] (signCore ⟨[1]⟩ ⟨1, 1⟩ 1 [2]) 2 1).2
      = true :=
  ⟨⟨by decide, by decide, by decide⟩,
    C4_change_representation ⟨1, 1⟩ [1] [2] 1 2 1 (by decide) (by decide)
      (by decide) (by decide)⟩

/-- Claim C9: with the public parameters' generator `p2` non-identity (a
data-model invariant), the signed combination `Σ xᵢ·Mᵢ` not the identity and
`p ≠ 1`, a one-sided conversion fails: converting only the key, or only the
signature, makes `verify` return `false`. -/
theorem C9_one_sided_conversion_fails (pp : PublicParams K) (x M : List K)
    (y p f : K) (hy : y ≠ 0) (hf : f ≠ 0) (hp1 : p ≠ 1)
    (hS : ((M.zip x).map fun t => t.1 * t.2).sum ≠ 0) (hp2 : pp.p2 ≠ 0)
    (hlen : M.length ≤ x.length) :
    ((PublicKey.mk (x.map fun xi => pp.p2 * xi)).convert p).verify pp M
      (signCore ⟨x⟩ pp y M) = false ∧
    (PublicKey.mk (x.map fun xi => pp.p2 * xi)).verify pp M
      ((signCore ⟨x⟩ pp y M).convert_with_f p f) = false := by
  set S := ((M.zip x).map fun t => t.1 * t.2).sum with hSdef
  have hcontra : ¬(pp.p2 * p * S = pp.p2 * S) := by
    intro h
    have h3 : (1 - p) * (pp.p2 * S) = 0 := by linear_combination -h
    rcases mul_eq_zero.mp h3 with h4 | h4
    · exact hp1 (sub_eq_zero.mp h4).symm
    · rcases mul_eq_zero.mp h4 with h5 | h5
      · exact hp2 h5
      · exact hS h5
  constructor
  · rw [← Bool.not_eq_true]
    intro h
    rw [verify_eq_true_iff _ _ _ _
      (by simpa [PublicKey.convert] using hlen)] at h
    have h2 := h.2
    rw [signCore_z, signCore_y2, pairingFold_eq_sum] at h2
    simp only [PublicKey.convert, List.map_map] at h2
    rw [zipSum_right_of M x _ (pp.p2 * p)
      (fun t => by simp only [Function.comp_apply]; ring)] at h2
    unfold pairing at h2
    rw [← hSdef] at h2
    have hL : y * S * (pp.p2 * (1 / y)) = pp.p2 * S := by
      field_simp
      ring
    rw [hL] at h2
    exact hcontra h2.symm
  · rw [← Bool.not_eq_true]
    intro h
    rw [verify_eq_true_iff _ _ _ _ (by simpa using hlen)] at h
    have h2 := h.2
    have hzy : pairing ((signCore ⟨x⟩ pp y M).convert_with_f p f).z
        ((signCore ⟨x⟩ pp y M).convert_with_f p f).y2
        = pairing ((signCore ⟨x⟩ pp y M).z * (p * f))
            ((signCore ⟨x⟩ pp y M).y2 * (1 / f)) := rfl
    rw [hzy, signCore_z, signCore_y2, pairingFold_eq_sum] at h2
    rw [zipSum_right_of M x _ pp.p2 (fun t => rfl)] at h2
    unfold pairing at h2
    rw [← hSdef] at h2
    have hL : y * S * (p * f) * (pp.p2 * (1 / y) * (1 / f))
        = pp.p2 * p * S := by
      field_simp
      ring
    rw [hL] at h2
    exact hcontra h2

/-- Witness for C9 at `K = ZMod 5`, `pp = (1,1)`, `x = [1]`, `M = [1]`
(so `Σ xᵢ·Mᵢ = 1 ≠ 0`), `y = 1`, `p = 2`, `f = 1`. -/
theorem C9_witness :
    ((1 : ZMod 5) ≠ 0 ∧ (2 : ZMod 5) ≠ (1 : ZMod 5) ∧
      ((([1] : List (ZMod 5)).zip [1]).map fun t => t.1 * t.2).sum ≠ 0) ∧
    (((PublicKey.mk ([1].map fun xi =>
          (⟨1, 1⟩ : PublicParams (ZMod 5)).p2 * xi)).convert 2).verify
        ⟨1, 1⟩ [1] (signCore ⟨[1]⟩ ⟨1, 1⟩ 1 [1]) = false ∧
      (PublicKey.mk ([1].map fun xi =>
          (⟨1, 1⟩ : PublicParams (ZMod 5)).p2 * xi)).verify
        ⟨1, 1⟩ [1] ((signCore ⟨[1]⟩ ⟨1, 1⟩ 1 [1]).convert_with_f 2 1)
        = false) :=
  ⟨⟨by decide, by decide, by decide⟩,
    C9_one_sided_conversion_fails ⟨1, 1⟩ [1] [1] 1 2 1 (by decide)
      (by decide) (by decide) (by decide) (by decide) (by decide)⟩

/-- Claim C10: `key_gen` accepts `ℓ = 0` and returns keys of length 0;
signing the empty message (lib.rs `sign`, i.e. `signCore`) yields `z = 0`
(the `G₁` identity), and the lib.rs `verify` accepts the empty message under
the empty key. -/
theorem C10_empty_message (pp : PublicParams K) (rng : Nat → K) (y : K)
    (hy : y ≠ 0) :
    ((pp.key_gen rng 0).1).bx.length = 0 ∧
    ((pp.key_gen rng 0).2).x.length = 0 ∧
    (signCore (pp.key_gen rng 0).2 pp y []).z = 0 ∧
    libVerify (pp.key_gen rng 0).1 pp []
      (signCore (pp.key_gen rng 0).2 pp y []) = true := by
  refine ⟨rfl, rfl, rfl, ?_⟩
  rw [libVerify_eq_true_iff _ _ _ _
    (show ([] : List K).length = ((pp.key_gen rng 0).1).bx.length from rfl)]
  constructor
  · show pairing (pp.p1 * (1 / y)) pp.p2 = pairing pp.p1 (pp.p2 * (1 / y))
    unfold pairing; ring
  · show pairing 0 _ = pairingFold [] _
    simp [pairing, pairingFold]

/-- Witness for C10 at `K = ZMod 5`, `pp = (1,1)`, `y = 1`. -/
theorem C10_witness :
    ((1 : ZMod 5) ≠ 0) ∧
    ((((⟨1, 1⟩ : PublicParams (ZMod 5)).key_gen (fun _ => 1) 0).1).bx.length
        = 0 ∧
     (((⟨1, 1⟩ : PublicParams (ZMod 5)).key_gen (fun _ => 1) 0).2).x.length
        = 0 ∧
     (signCore ((⟨1, 1⟩ : PublicParams (ZMod 5)).key_gen (fun _ => 1) 0).2
        ⟨1, 1⟩ 1 []).z = 0 ∧
     libVerify ((⟨1, 1⟩ : PublicParams (ZMod 5)).key_gen (fun _ => 1) 0).1
        ⟨1, 1⟩ []
        (signCore ((⟨1, 1⟩ : PublicParams (ZMod 5)).key_gen (fun _ => 1) 0).2
          ⟨1, 1⟩ 1 []) = true) :=
  ⟨by decide, C10_empty_message ⟨1, 1⟩ (fun _ => 1) 1 (by decide)⟩

/-! ## Extension helper lemmas -/

lemma gsAux_length (g : K) : ∀ (n : Nat) (gi : K), (gsAux g gi n).length = n
  | 0, _ => rfl
  | n + 1, gi => by simp [gsAux, gsAux_length g n (gi + g)]

lemma gsAux_ne_nil (g gi : K) (n : Nat) (hn : 1 ≤ n) : gsAux g gi n ≠ [] := by
  cases n with
  | zero => omega
  | succ n => simp [gsAux]

/-- `to_tuples` succeeds on a non-empty message and returns the list of
5-element tuples. -/
lemma to_tuples_eq_some (m : VarMessage K) (h : K) (hn : 1 ≤ m.u.length) :
    ∃ gn, m.to_tuples h
      = some (((gsAux m.g m.g m.u.length).zip m.u).map
          fun p => [m.g, p.1, gn, h, p.2]) := by
  have hne := gsAux_ne_nil m.g m.g m.u.length hn
  obtain ⟨gn, hgn⟩ :=
    Option.isSome_iff_exists.mp (List.getLast?_isSome.mpr hne)
  refine ⟨gn, ?_⟩
  show Option.map _ (gsAux m.g m.g m.u.length).getLast? = _
  rw [hgn]
  rfl

/-- The glue-element loop computes `h + xi·y·Σᵢ xⁱ·uᵢ`. -/
lemma glueGo_eq (x y : K) : ∀ (us : List K) (h xi : K),
    glueGo x y h xi us
      = h + xi * y * (((List.range us.length).zip us).map
          fun q => x ^ q.1 * q.2).sum := by
  intro us
  induction us with
  | nil => intro h xi; simp [glueGo]
  | cons u0 us ih =>
    intro h xi
    simp only [glueGo]
    rw [ih (h + u0 * (xi * y)) (xi * x), List.length_cons,
      List.range_succ_eq_map, List.zip_cons_cons, List.map_cons,
      List.sum_cons, List.zip_map_left, List.map_map]
    have hcomp : ((fun q : Nat × K => x ^ q.1 * q.2) ∘ Prod.map Nat.succ id)
        = fun q : Nat × K => x * (x ^ q.1 * q.2) := funext fun q => by
      simp only [Function.comp_apply, Prod.map_fst, Prod.map_snd, id_eq,
        Nat.succ_eq_add_one]
      ring
    rw [hcomp, List.sum_map_mul_left]
    ring

/-- The per-tuple signing loop succeeds whenever every tuple fits the key,
and (when every sampled `y` is nonzero) each component signature verifies
under the matching key: the conjunction checked by the extension `verify`
holds. -/
lemma mapSign_verify (pp : PublicParams K) (x : List K) :
    ∀ (ms : List (List K)) (ys : Nat → K),
      (∀ i, i < ms.length → ys i ≠ 0) →
      (∀ mi ∈ ms, mi.length ≤ x.length) →
      ∃ sigs, mapSign ⟨x⟩ pp ys ms = some sigs ∧
        ((sigs.zip ms).all fun sm =>
          (PublicKey.mk (x.map fun xi => pp.p2 * xi)).verify pp sm.2 sm.1)
          = true := by
  intro ms
  induction ms with
  | nil => intro ys _ _; exact ⟨[], rfl, rfl⟩
  | cons m ms ih =>
    intro ys hy hlen
    obtain ⟨sigs, hsigs, hall⟩ := ih (fun n => ys (n + 1))
      (fun i hi => hy (i + 1) (by simpa using hi))
      (fun mi hmi => hlen mi (List.mem_cons_of_mem _ hmi))
    refine ⟨signCore ⟨x⟩ pp (ys 0) m :: sigs, ?_, ?_⟩
    · simp only [mapSign]
      unfold SecretKey.sign
      rw [if_neg (Nat.not_lt.mpr (hlen m (List.mem_cons_self m ms)))]
      simp [hsigs]
    · simp only [List.zip_cons_cons, List.all_cons]
      rw [hall, verify_signCore_of_le pp x m (ys 0) (hy 0 (by simp))
        (hlen m (List.mem_cons_self m ms))]
      rfl

/-- Zeta-reduced unfolding of the extension `sign`. -/
lemma ExtSecretKey.sign_eq (esk : ExtSecretKey K) (pp : PublicParams K)
    (ys : Nat → K) (m : VarMessage K) :
    esk.sign pp ys m
      = (m.to_tuples (glueGo (esk.x7 * (1 / esk.x6))
            ((esk.x9 * (1 / esk.x8)) * (esk.x10 * (1 / esk.x8)))
            0 1 m.u)).bind
          fun ms => (mapSign esk.sk pp ys ms).map
            fun sigs => VarSignature.mk
              (glueGo (esk.x7 * (1 / esk.x6))
                ((esk.x9 * (1 / esk.x8)) * (esk.x10 * (1 / esk.x8)))
                0 1 m.u) sigs := rfl

/-- Unfolding of the extension `verify`. -/
lemma ExtPublicKey.verify_eq (epk : ExtPublicKey K) (pp : PublicParams K)
    (m : VarMessage K) (sig : VarSignature K) :
    epk.verify pp m sig = (m.to_tuples sig.h).map
      fun ms => (sig.sigs.zip ms).all fun sm => epk.pk.verify pp sm.2 sm.1 :=
  rfl

/-- Claim C7: for every non-empty `VarMessage` and extension key pair from
`key_gen_ex`, `VarSign` computes the glue element
`h = y · Σ_{i=1..n} x^{i-1}·uᵢ` with trapdoors `x = x7/x6`,
`y = (x9/x8)·(x10/x8)`, base-signs each 5-tuple, and the result satisfies
`VarVerify(pk_ex, pp, M, σ) = some true` — under nonzero sampled `y`s (and
nonzero `x6`, `x8`, which the source inverts). -/
theorem C7_var_sign_then_verify (pp : PublicParams K) (rng ys : Nat → K)
    (m : VarMessage K) (hn : 1 ≤ m.u.length)
    (hy : ∀ i, i < m.u.length → ys i ≠ 0)
    (hx6 : ((pp.key_gen_ex rng).2).x6 ≠ 0)
    (hx8 : ((pp.key_gen_ex rng).2).x8 ≠ 0) :
    ∃ σ : VarSignature K,
      ((pp.key_gen_ex rng).2).sign pp ys m = some σ ∧
      σ.h = ((pp.key_gen_ex rng).2.x9 / (pp.key_gen_ex rng).2.x8)
          * ((pp.key_gen_ex rng).2.x10 / (pp.key_gen_ex rng).2.x8)
          * (((List.range m.u.length).zip m.u).map fun q =>
              ((pp.key_gen_ex rng).2.x7 / (pp.key_gen_ex rng).2.x6) ^ q.1
                * q.2).sum ∧
      ((pp.key_gen_ex rng).1).verify pp m σ = some true := by
  set esk := (pp.key_gen_ex rng).2 with hesk
  set epk := (pp.key_gen_ex rng).1 with hepk
  set x5 : List K := (List.range 5).map rng with hx5
  set H : K := glueGo (esk.x7 * (1 / esk.x6))
    ((esk.x9 * (1 / esk.x8)) * (esk.x10 * (1 / esk.x8))) 0 1 m.u with hH
  obtain ⟨gn, htup⟩ := to_tuples_eq_some m H hn
  set ms : List (List K) := ((gsAux m.g m.g m.u.length).zip m.u).map
    (fun p => [m.g, p.1, gn, H, p.2]) with hms
  have hmslen : ms.length = m.u.length := by
    simp [hms, List.length_zip, gsAux_length]
  have hfit : ∀ mi ∈ ms, mi.length ≤ x5.length := by
    intro mi hmi
    rw [hms] at hmi
    obtain ⟨p, _, hp⟩ := List.mem_map.mp hmi
    rw [← hp]
    simp [hx5]
  obtain ⟨sigs, hsigs, hall⟩ := mapSign_verify pp x5 ms ys
    (fun i hi => hy i (by omega)) hfit
  refine ⟨⟨H, sigs⟩, ?_, ?_, ?_⟩
  · rw [ExtSecretKey.sign_eq, ← hH, htup]
    simp only [Option.some_bind]
    rw [show esk.sk = SecretKey.mk x5 from rfl, hsigs]
    rfl
  · show H = _
    rw [hH, glueGo_eq]
    simp only [mul_one_div]
    ring
  · rw [ExtPublicKey.verify_eq,
      show (VarSignature.mk H sigs).h = H from rfl, htup]
    simp only [Option.map_some']
    rw [show epk.pk = PublicKey.mk (x5.map fun xi => pp.p2 * xi) from rfl,
      hall]

/-- Witness for C7 at `K = ZMod 5`, `pp = (1,1)`, `rng = ys = const 1`,
`VarMessage (g = 1, u = [1])`. -/
theorem C7_witness :
    (1 ≤ (VarMessage.mk (1 : ZMod 5) [1]).u.length ∧
      (((⟨1, 1⟩ : PublicParams (ZMod 5)).key_gen_ex (fun _ => 1)).2).x6 ≠ 0 ∧
      (((⟨1, 1⟩ : PublicParams (ZMod 5)).key_gen_ex (fun _ => 1)).2).x8 ≠ 0) ∧
    ∃ σ : VarSignature (ZMod 5),
      ((((⟨1, 1⟩ : PublicParams (ZMod 5)).key_gen_ex (fun _ => 1)).2).sign
          ⟨1, 1⟩ (fun _ => 1) ⟨1, [1]⟩ = some σ) ∧
      σ.h = ((((⟨1, 1⟩ : PublicParams (ZMod 5)).key_gen_ex (fun _ => 1)).2).x9
            / (((⟨1, 1⟩ : PublicParams (ZMod 5)).key_gen_ex
                (fun _ => 1)).2).x8)
          * ((((⟨1, 1⟩ : PublicParams (ZMod 5)).key_gen_ex
                (fun _ => 1)).2).x10
            / (((⟨1, 1⟩ : PublicParams (ZMod 5)).key_gen_ex
                (fun _ => 1)).2).x8)
          * (((List.range (VarMessage.mk (1 : ZMod 5) [1]).u.length).zip
              (VarMessage.mk (1 : ZMod 5) [1]).u).map fun q =>
              ((((⟨1, 1⟩ : PublicParams (ZMod 5)).key_gen_ex
                  (fun _ => 1)).2).x7
                / (((⟨1, 1⟩ : PublicParams (ZMod 5)).key_gen_ex
                    (fun _ => 1)).2).x6) ^ q.1 * q.2).sum ∧
      ((((⟨1, 1⟩ : PublicParams (ZMod 5)).key_gen_ex (fun _ => 1)).1).verify
          ⟨1, 1⟩ ⟨1, [1]⟩ σ = some true) :=
  ⟨⟨by decide, by decide, by decide⟩,
    C7_var_sign_then_verify ⟨1, 1⟩ (fun _ => 1) (fun _ => 1) ⟨1, [1]⟩
      (by decide) (fun i _ => one_ne_zero) (by decide) (by decide)⟩

end Mercurial
